import Mathlib

/-!
Shallow embedding of the tankobon organiser core (unumber.py, nestable.py,
transform.py) and verification of its natural-language specification.

Python integers are modelled as `Int`, Python `None` as `Option`, raised
exceptions as `Except`.  The float-epsilon comparison in `UNumber.__eq__`
(used only when the stored decimal part is nonzero and the other operand is
an integer) is modelled exactly: a nonzero stored decimal part never equals
an integer.
-/

namespace Tankobon

/-- `UNumber`: whole part `_value` and optional decimal part `_dec`
(`unumber.py`, attributes `_value`, `_dec`). -/
structure UNumber where
  value : Int
  dec : Option Int
deriving DecidableEq, Repr

/-- `UNumber._R_VALUES`: value of each roman digit (`unumber.py` line 46). -/
def rValues (c : Char) : Option Nat :=
  if c = 'I' then some 1
  else if c = 'V' then some 5
  else if c = 'X' then some 10
  else if c = 'L' then some 50
  else if c = 'C' then some 100
  else if c = 'D' then some 500
  else if c = 'M' then some 1000
  else none

/-- Loop body of `UNumber.from_roman` (`unumber.py` lines 82-102):
right-to-left scan, adding a digit when it is at least the running highest
and subtracting it when it is a valid subtractive digit. -/
def fromRomanGo : List Char → Int → Nat → Except String Int
  | [], value, _ => .ok value
  | c :: rest, value, highest =>
    match rValues c with
    | none => .error "Invalid roman character"
    | some v =>
      if v ≥ highest then
        fromRomanGo rest (value + v) v
      else if ¬(v = 1 ∨ v = 10 ∨ v = 100) ∨ highest / v > 10 then
        .error "Invalid roman numeral (out of order)"
      else
        fromRomanGo rest (value - v) highest

/-- `UNumber.from_roman` (`unumber.py` lines 61-102): iterate over
`reversed(txt.upper())` accumulating the value. -/
def fromRoman (txt : String) : Except String Int :=
  fromRomanGo (txt.data.map Char.toUpper).reverse 0 0

/-- `UNumber._R_INV` (`unumber.py` lines 50-55): canonical roman fragments
per decimal digit, one row per scale. -/
def rINV : List (List String) :=
  [ ["", "I", "II", "III", "IV", "V", "VI", "VII", "VIII", "IX"],
    ["", "X", "XX", "XXX", "XL", "L", "LX", "LXX", "LXXX", "XC"],
    ["", "C", "CC", "CCC", "CD", "D", "DC", "DCC", "DCCC", "CM"],
    ["", "M", "MM", "MMM", "MMMM"] ]

/-- `cls._R_INV[scale][n]`.  The out-of-range default is unreachable under
`to_roman`'s range guard (`value < 5000` keeps `scale ≤ 3`, `n ≤ 4` at
scale 3). -/
def rInv (scale n : Nat) : String :=
  (rINV.getD scale []).getD n ""

/-- The `while value > 0` loop of `UNumber.to_roman` (`unumber.py`
lines 129-134), fuel-structured so that it evaluates in the kernel; the
fuel argument is always at least the loop's iteration count. -/
def toRomanLoop : Nat → Nat → Nat → List String
  | 0, _, _ => []
  | fuel + 1, value, scale =>
    if value = 0 then []
    else rInv scale (value % 10) :: toRomanLoop fuel (value / 10) (scale + 1)

/-- `UNumber.to_roman` (`unumber.py` lines 104-135): range guard then the
digit loop, fragments joined most-significant first. -/
def toRoman (value : Int) : Except String String :=
  if ¬(0 < value ∧ value < 5000) then .error "Out of valid range [1,4999]"
  else .ok (String.join (toRomanLoop value.toNat value.toNat 0).reverse)

/-- `UNumber._tuple` second component (`unumber.py` lines 274-284): the
decimal part with Python falsy values (`None`, `0`) mapped to `0`. -/
def UNumber.tdec (a : UNumber) : Int :=
  match a.dec with
  | none => 0
  | some d => if d = 0 then 0 else d

/-- `UNumber.__lt__` between two `UNumber`s (`unumber.py` lines 286-302):
lexicographic comparison of the `_tuple` representations. -/
def UNumber.lt (a b : UNumber) : Bool :=
  a.value < b.value || (a.value = b.value && a.tdec < b.tdec)

/-- `UNumber.__eq__` between two `UNumber`s (`unumber.py` lines 261-262):
both parts must be equal (`None` and `0` decimals are distinct). -/
def UNumber.beq (a b : UNumber) : Bool :=
  a.value = b.value && a.dec = b.dec

/-- `UNumber.__eq__` against a Python `int` (`unumber.py` lines 263-269):
with a truthy decimal part the comparison is a float-epsilon test that a
nonzero stored decimal never satisfies; otherwise compare the whole part. -/
def UNumber.eqInt (a : UNumber) (e : Int) : Bool :=
  match a.dec with
  | some d => if d = 0 then a.value = e else false
  | none => a.value = e

/-- `UNumber.is_normal` (`unumber.py` lines 304-311). -/
def UNumber.isNormal (a : UNumber) : Bool :=
  a.dec = none

/-- Modelled from the spec: `UNumber.normalize` is called from
`Base.normalize` (`nestable.py` line 94) and exercised by the repository's
tests, but the method body is absent from `src/tankobon/unumber.py`.
Spec (section 3): "`normalize()` drops a decimal part equal to 0." -/
def UNumber.normalize (a : UNumber) : UNumber :=
  if a.dec = some 0 then { a with dec := none } else a

/-- Modelled from the spec: the `UNumber.whole` property setter used by
`Node.force` (`nestable.py` line 591) and the repository's tests is absent
from `src/tankobon/unumber.py`; it sets the whole part `_value`. -/
def UNumber.setWhole (a : UNumber) (w : Int) : UNumber :=
  { a with value := w }

/-- Modelled from the spec: the `UNumber.decimal` property setter used by
`Node.force` (`nestable.py` line 593) and the repository's tests is absent
from `src/tankobon/unumber.py`; it sets the decimal part `_dec`
(`None` for no decimal). -/
def UNumber.setDecimal (a : UNumber) (d : Option Int) : UNumber :=
  { a with dec := d }

deriving instance DecidableEq for Except

/-- The exceptions raised by the node-construction code:
`CannotChooseError` (`nestable.py` line 48), `ValueError` from number
parsing, and `IndexError` from indexing an empty list. -/
inductive Err where
  | cannotChoose (name : String)
  | valueError (msg : String)
  | indexError
deriving DecidableEq, Repr

/-- Maximal run of ASCII digits at the head of the character list
(the `\d+` part of `UNumber._A_Match`, `unumber.py` line 59). -/
def takeDigits : List Char → List Char × List Char
  | [] => ([], [])
  | c :: cs =>
    if c.isDigit then
      let (ds, rest) := takeDigits cs
      (c :: ds, rest)
    else ([], c :: cs)

/-- `re.findall` of `UNumber._A_Match` = `\d+(?:\.\d+)?` (`unumber.py`
line 59): left-to-right scan collecting maximal digit runs with an optional
single decimal part.  Fuel-structured (each step consumes at least one
character) so that it evaluates in the kernel. -/
def findArabicGo : Nat → List Char → List (List Char)
  | 0, _ => []
  | _, [] => []
  | fuel + 1, c :: cs =>
    if c.isDigit then
      let (ds, rest) := takeDigits (c :: cs)
      match rest with
      | '.' :: r2 =>
        match takeDigits r2 with
        | ([], _) => ds :: findArabicGo fuel rest
        | (ds2, rest2) => (ds ++ '.' :: ds2) :: findArabicGo fuel rest2
      | _ => ds :: findArabicGo fuel rest
    else findArabicGo fuel cs

/-- A character matched by `[IVXLCDM]` (`UNumber._R_Match`, `unumber.py`
line 58; the pattern is case sensitive). -/
def isRomanChar (c : Char) : Bool :=
  (rValues c).isSome

/-- Maximal run of roman characters at the head of the character list. -/
def takeRoman : List Char → List Char × List Char
  | [] => ([], [])
  | c :: cs =>
    if isRomanChar c then
      let (ds, rest) := takeRoman cs
      (c :: ds, rest)
    else ([], c :: cs)

/-- `re.findall` of `UNumber._R_Match` = `[IVXLCDM]+`: maximal runs of
roman characters, left to right.  Fuel-structured like `findArabicGo`. -/
def findRomanGo : Nat → List Char → List (List Char)
  | 0, _ => []
  | _, [] => []
  | fuel + 1, c :: cs =>
    if isRomanChar c then
      let (ds, rest) := takeRoman (c :: cs)
      ds :: findRomanGo fuel rest
    else findRomanGo fuel cs

/-- `int` on a string of ASCII digits. -/
def natOfDigits (ds : List Char) : Nat :=
  ds.foldl (fun a c => a * 10 + (c.toNat - 48)) 0

/-- `UNumber.__init__` (`unumber.py` lines 159-182) on a token produced by
one of the two regexes: a token with a `'.'` is split once into whole and
decimal digits, an all-digit token is the whole part, anything else is
parsed as a roman numeral (which may raise `ValueError`). -/
def UNumber.ofToken (tok : List Char) : Except String UNumber :=
  if tok.contains '.' then
    let a := tok.takeWhile (fun c => c ≠ '.')
    let b := (tok.dropWhile (fun c => c ≠ '.')).tail
    .ok ⟨natOfDigits a, some (natOfDigits b)⟩
  else if tok ≠ [] && tok.all Char.isDigit then
    .ok ⟨natOfDigits tok, none⟩
  else
    (fromRoman (String.mk tok)).map fun v => ⟨v, none⟩

/-- `UNumber.extract_numbers` (`unumber.py` lines 137-154): find all the
matches of the selected pattern and build a `UNumber` from each. -/
def extractNumbers (txt : String) (roman : Bool) : Except String (List UNumber) :=
  if roman then
    (findRomanGo (txt.data.length + 1) txt.data).mapM UNumber.ofToken
  else
    (findArabicGo (txt.data.length + 1) txt.data).mapM UNumber.ofToken

/-- The state of one node after construction: `_name`, `_number`,
`_hoaxes` and `_extra` (`nestable.py`, `Base.__init__` / `Node.__init__`). -/
structure NodeData where
  name : String
  number : Option UNumber
  hoaxes : List UNumber
  extra : Option String
deriving DecidableEq, Repr

/-- The pair returned by `Node.spurious()` of the parent (`nestable.py`
lines 227-243): the accumulated ancestor hoaxes and ancestor level
numbers. -/
structure SpuriousInfo where
  hoax : List UNumber
  level : List Int
deriving DecidableEq, Repr

/-- The fields of `OptGroup` (`options.py`) consumed by the node code. -/
structure OptG where
  roman : Bool
  normalize : Bool
  bonus : Option String
  special : Option String
  first : Int
  flat : Bool
deriving DecidableEq, Repr

/-- `numbers.remove(x)` for a `UNumber` element: drop the first element
equal (in the `UNumber` vs `UNumber` sense) to `x`. -/
def eraseU : List UNumber → UNumber → List UNumber
  | [], _ => []
  | u :: us, x => if u.beq x then us else u :: eraseU us x

/-- `numbers.remove(n)` for a Python `int` `n`: drop the first `UNumber`
element equal (in the `UNumber` vs `int` sense) to `n`. -/
def eraseByInt : List UNumber → Int → List UNumber
  | [], _ => []
  | u :: us, n => if u.eqInt n then us else u :: eraseByInt us n

/-- The hoax loop of `Node._rm_spurious` (`nestable.py` lines 270-277):
always non-greedy, stops once a single number remains. -/
def rmHoaxLoop : List UNumber → List UNumber → List UNumber
  | [], numbers => numbers
  | n :: rest, numbers =>
    if numbers.length = 1 then numbers
    else if numbers.any (fun u => u.beq n) then rmHoaxLoop rest (eraseU numbers n)
    else rmHoaxLoop rest numbers

/-- The level-number loop of `Node._rm_spurious` (`nestable.py`
lines 279-285): stops at a single number unless greedy. -/
def rmSpurLoop (greedy : Bool) : List Int → List UNumber → List UNumber
  | [], numbers => numbers
  | n :: rest, numbers =>
    if !greedy && numbers.length = 1 then numbers
    else if numbers.any (fun u => u.eqInt n) then rmSpurLoop greedy rest (eraseByInt numbers n)
    else rmSpurLoop greedy rest numbers

/-- `Node._rm_spurious` (`nestable.py` lines 245-287): with no parent the
list is returned untouched, otherwise the parent's hoaxes are removed
first (non-greedy) and then the parent's level numbers. -/
def rmSpurious (parent : Option SpuriousInfo) (numbers : List UNumber) (greedy : Bool) : List UNumber :=
  match parent with
  | none => numbers
  | some sp => rmSpurLoop greedy sp.level (rmHoaxLoop sp.hoax numbers)

/-- `Node._guess` (`nestable.py` lines 289-333): filter the numbers by the
expected pool; no match re-runs greedy spurious removal and picks the
first survivor, a unique match is chosen (and removed from the remaining
candidates, who become hoaxes), several matches raise
`CannotChooseError` with the node's name. -/
def guess (name : String) (parent : Option SpuriousInfo) (expected : List Int)
    (numbers : List UNumber) : Except Err (Option UNumber × List UNumber) :=
  if numbers.length = 0 then .ok (none, [])
  else
    match numbers.filter (fun x => expected.any (fun e => x.eqInt e)) with
    | [] =>
      match rmSpurious parent numbers true with
      | [] => .ok (none, [])
      | x :: rest => .ok (some x, rest)
    | [x] => .ok (some x, eraseU numbers x)
    | _ => .error (.cannotChoose name)

/-- `Node._parse_number` (`nestable.py` lines 335-378) from the point
after number extraction, for a non-`None` expected pool: spurious removal,
`_guess`, bonus labelling, optional normalisation, and the pool update
(`expected.remove(int(number))`, with a failed removal marking the node
special).  Returns the node state and the updated pool. -/
def parseNumberWith (opt : OptG) (name : String) (parent : Option SpuriousInfo)
    (exp : List Int) (numbers : List UNumber) : Except Err (NodeData × List Int) :=
  match guess name parent exp (rmSpurious parent numbers false) with
  | .error e => .error e
  | .ok (none, hoax) => .ok (⟨name, none, hoax, opt.bonus⟩, exp)
  | .ok (some num, hoax) =>
    let num := if opt.normalize then num.normalize else num
    if num.isNormal then
      if exp.contains num.value then
        .ok (⟨name, some num, hoax, none⟩, exp.erase num.value)
      else
        .ok (⟨name, some num, hoax, opt.special⟩, exp)
    else
      .ok (⟨name, some num, hoax, none⟩, exp)

/-- `Node._parse_number` (`nestable.py` lines 335-378) given the already
extracted numbers: a `None` expected pool turns every number into a hoax
and leaves the node unnumbered, otherwise `parseNumberWith` runs. -/
def parseNumberFrom (opt : OptG) (name : String) (parent : Option SpuriousInfo)
    (expected : Option (List Int)) (numbers : List UNumber) :
    Except Err (NodeData × Option (List Int)) :=
  match expected with
  | none => .ok (⟨name, none, numbers, none⟩, none)
  | some exp => (parseNumberWith opt name parent exp numbers).map fun r => (r.1, some r.2)

/-- `Node.__init__` / `Node._parse_number` including the number extraction
from the name (`nestable.py` lines 342-345). -/
def parseNumber (opt : OptG) (name : String) (parent : Option SpuriousInfo)
    (expected : Option (List Int)) : Except Err (NodeData × Option (List Int)) := do
  let numbers ← (extractNumbers name opt.roman).mapError Err.valueError
  parseNumberFrom opt name parent expected numbers

/-- Python string `<`: lexicographic comparison of the characters. -/
def strLt (a b : String) : Bool :=
  decide (a < b)

/-- `Node.__lt__` (`nestable.py` lines 403-431). -/
def nodeLt (a b : NodeData) : Bool :=
  match a.number, b.number with
  | none, _ => false
  | some _, none => true
  | some na, some nb =>
    if na.beq nb then
      match a.extra, b.extra with
      | none, _ => true
      | some _, none => false
      | some ea, some eb => strLt ea eb
    else na.lt nb

/-- Stable insertion of a node into an already sorted list: the element
goes after every earlier element it is not `<` than. -/
def insertNode (a : NodeData) : List NodeData → List NodeData
  | [] => [a]
  | b :: bs => if nodeLt a b then a :: b :: bs else b :: insertNode a bs

/-- `self._nodes.sort()` (`nestable.py` line 659): Python's stable sort
driven by `Node.__lt__`, modelled as a stable insertion sort. -/
def sortNodes (l : List NodeData) : List NodeData :=
  l.foldl (fun acc a => insertNode a acc) []

/-- `Base.is_normal` (`nestable.py` lines 160-170): a node with a whole
number (truthy `_number` whose decimal part is `None`). -/
def NodeData.isNormalN (c : NodeData) : Bool :=
  match c.number with
  | some u => u.isNormal
  | none => false

/-- `Base.skip` (`nestable.py` lines 151-158). -/
def NodeData.skipN (c : NodeData) : Bool :=
  c.number.isNone

/-- `Base.__int__` (`nestable.py` lines 172-182). -/
def NodeData.toInt (c : NodeData) : Int :=
  match c.number with
  | some u => u.value
  | none => 0

/-- `Base.normalize` (`nestable.py` lines 88-94): nothing to do without a
number, otherwise normalize the number. -/
def NodeData.normalizeN (c : NodeData) : NodeData :=
  match c.number with
  | none => c
  | some u => { c with number := some u.normalize }

/-- The `numbers = [last + k for k in range(len(chapters))]` pool of
`Volume.populate` (`nestable.py` line 641). -/
def expectedPool (last : Int) (count : Nat) : List Int :=
  (List.range count).map fun k : Nat => last + (k : Int)

/-- The chapter construction loop of `Volume.populate` (`nestable.py`
line 645): each `Chapter(self, c, numbers, opts)` consumes from the shared
mutable pool. -/
def buildChapters (opts : OptG) (volInfo : SpuriousInfo) :
    List String → List Int → Except Err (List NodeData × List Int)
  | [], pool => .ok ([], pool)
  | c :: cs, pool => do
    let numbers ← (extractNumbers c opts.roman).mapError Err.valueError
    let (node, pool') ← parseNumberWith opts c (some volInfo) pool numbers
    let (nodes, poolF) ← buildChapters opts volInfo cs pool'
    return (node :: nodes, poolF)

/-- The discard loop of `Volume.populate` (`nestable.py` lines 648-654):
for every constructed chapter that is not normal, if the last pool entry
equals the running `last` it is deleted and `last` decremented.
`numbers[-1]` on an empty pool would raise `IndexError`. -/
def discardLoop : List NodeData → List Int → Int → Except Err (List Int × Int)
  | [], pool, last => .ok (pool, last)
  | c :: rest, pool, last =>
    if c.isNormalN then discardLoop rest pool last
    else
      match pool.getLast? with
      | none => .error .indexError
      | some v =>
        if v = last then discardLoop rest pool.dropLast (last - 1)
        else discardLoop rest pool last

/-- The bonus-deduplication loop of `Volume.populate` (`nestable.py`
lines 661-673).  The dictionary `seen` is keyed by `format(self)`, which
is the same string on every iteration (it formats the volume), so it
reduces to a counter over the unnumbered chapters: the first keeps its
label, the `n`-th (`n ≥ 2`) gets `f" {n}"` appended (`None + str` would
raise `TypeError`). -/
def dedupBonus : List NodeData → Nat → Except Err (List NodeData)
  | [], _ => .ok []
  | c :: rest, count =>
    if c.number.isSome then (dedupBonus rest count).map (c :: ·)
    else
      let n := count + 1
      if n = 1 then (dedupBonus rest n).map (c :: ·)
      else
        match c.extra with
        | none => .error (.valueError "TypeError: unsupported operand type")
        | some e => (dedupBonus rest n).map ({ c with extra := some (e ++ " " ++ toString n) } :: ·)

/-- The state of a volume after `Volume.populate`: the child nodes, the
final expected pool and running `last` (locals of `populate`), and the
returned value (`None` in flat mode). -/
structure PopResult where
  nodes : List NodeData
  pool : List Int
  lastv : Int
  ret : Option Int
deriving DecidableEq, Repr

/-- `Volume.populate` (`nestable.py` lines 615-681), with the directory
listing supplied as the `chapters` argument and the parent chain's
`spurious()` data as `volInfo`. -/
def populateCore (volInfo : SpuriousInfo) (last? : Option Int) (opts : OptG)
    (chapters : List String) : Except Err PopResult :=
  let last := last?.getD opts.first
  if chapters.isEmpty then .ok ⟨[], [], last, some last⟩
  else do
    let pool := expectedPool last chapters.length
    let last := last + (chapters.length : Int) - 1
    let (nodes, pool) ← buildChapters opts volInfo chapters pool
    let (pool, last) ← discardLoop nodes pool last
    let nodes := sortNodes nodes
    let nodes ← dedupBonus nodes 0
    if opts.flat then
      return ⟨nodes, pool, last, none⟩
    else
      match nodes with
      | [] => return ⟨nodes, pool, last, some 1⟩
      | n :: rest => return ⟨n :: rest, pool, last, some (rest.foldl (fun m c => max m c.toInt) n.toInt + 1)⟩

/-- The `decimal` argument of `Node.force`: either the `...` default
(leave the decimal part alone) or an explicit value. -/
inductive DecimalArg where
  | ellipsis
  | set (v : Option Int)
deriving DecidableEq, Repr

/-- `Node.force` (`nestable.py` lines 580-593): a missing number becomes
`UNumber('0')`, then the requested parts are overwritten. -/
def forceNode (c : NodeData) (whole : Option Int) (dec : DecimalArg) : NodeData :=
  let num := c.number.getD ⟨0, none⟩
  let num := match whole with
    | some w => num.setWhole w
    | none => num
  let num := match dec with
    | .ellipsis => num
    | .set v => num.setDecimal v
  { c with number := some num }

/-- The loop body of `Volume.renumber` (`nestable.py` lines 719-726):
skip unnumbered chapters, increment the counter only on normal chapters,
force the visited chapter's whole part to the counter. -/
def volStep (st : Int × List NodeData) (c : NodeData) : Int × List NodeData :=
  if c.skipN then (st.1, st.2 ++ [c])
  else
    let n := if c.isNormalN then st.1 + 1 else st.1
    (n, st.2 ++ [forceNode c (some n) .ellipsis])

/-- `Volume.renumber` (`nestable.py` lines 708-727): thread the counter
over the chapters in order. -/
def volRenumber (n0 : Int) (nodes : List NodeData) : Int × List NodeData :=
  nodes.foldl volStep (n0, [])

/-- The loop body of `Series.renumber` (`nestable.py` lines 886-890):
renumber the volume from the running counter; carry the result over
unless flat. -/
def seriesStep (flat : Bool) (st : Int × List (List NodeData)) (vol : List NodeData) :
    Int × List (List NodeData) :=
  let m := volRenumber st.1 vol
  (if flat then st.1 else m.1, st.2 ++ [m.2])

/-- `Series.renumber` (`nestable.py` lines 884-890): start at 0 and fold
the volumes. -/
def seriesRenumber (flat : Bool) (vols : List (List NodeData)) : List (List NodeData) :=
  (vols.foldl (seriesStep flat) (0, [])).2

/-- `Transform` (`transform.py` lines 41-74): old name, optional new name
(`None` marks the root, no rename) and the nested child transforms. -/
inductive Transform where
  | mk (old : String) (new : Option String) (nested : List Transform)

/-- The filesystem actions of `Transform.run`, in execution order: the
same-entry no-op (debug log only) or a move (logged in dry mode, performed
by `old.replace(new)` otherwise). -/
inductive FsEvent where
  | skip (old new : List String)
  | move (old new : List String)
deriving DecidableEq, Repr

/-- `Transform.run` (`transform.py` lines 133-169) as the ordered list of
filesystem actions, with paths as component lists.  The external
`resolve`/`samefile` check (is-the-target-the-same-entry, `False` when the
target does not exist) is abstracted as the oracle `same`; the `dry` flag
selects logging against execution but not the action sequence itself. -/
def Transform.run (same : List String → List String → Bool) (dry : Bool) :
    List String → Transform → List FsEvent
  | path, .mk old new nested =>
    let oldP := path ++ [old]
    let child := (nested.attach.map (fun t => Transform.run same dry oldP t.1)).flatten
    match new with
    | none => child
    | some nm =>
      let newP := path ++ [nm]
      if same oldP newP then child ++ [.skip oldP newP]
      else child ++ [.move oldP newP]
termination_by _ t => sizeOf t
decreasing_by
  have h := List.sizeOf_lt_of_mem t.2
  simp only [Transform.mk.sizeOf_spec]
  omega

/-! ## Verification of the claims -/

/-- C10.  `UNumber` equality distinguishes the values parsed from `"7"`
and `"7.0"`, yet neither is below the other in the ordering (the `_tuple`
representation maps an absent or falsy decimal part to 0). -/
theorem c10_eq_finer_than_order :
    UNumber.ofToken ['7'] = .ok ⟨7, none⟩ ∧
    UNumber.ofToken ['7', '.', '0'] = .ok ⟨7, some 0⟩ ∧
    UNumber.beq ⟨7, none⟩ ⟨7, some 0⟩ = false ∧
    UNumber.lt ⟨7, none⟩ ⟨7, some 0⟩ = false ∧
    UNumber.lt ⟨7, some 0⟩ ⟨7, none⟩ = false := by
  decide

/-- C9.  `to_roman` succeeds exactly on `1 ≤ value ≤ 4999` and raises the
range error on every other integer. -/
theorem c9_to_roman_range (v : Int) :
    (∃ s, toRoman v = .ok s) ↔ (1 ≤ v ∧ v ≤ 4999) := by
  rw [toRoman]
  split
  · rename_i h
    constructor
    · rintro ⟨s, hs⟩
      cases hs
    · intro hv
      exact absurd (by omega) h
  · rename_i h
    rw [not_not] at h
    constructor
    · intro _
      omega
    · intro _
      exact ⟨_, rfl⟩

/-- Round-trip of `to_roman`/`from_roman` on the block `[o, o + 500)`,
checked by evaluation. -/
abbrev romanBlockOk (o : Nat) : Prop :=
  ∀ k : Nat, k < 500 → 1 ≤ o + k → (toRoman ((o + k : Nat) : Int)).bind fromRoman = .ok ((o + k : Nat) : Int)

set_option maxRecDepth 200000 in
theorem romanBlock0 : romanBlockOk 0 := by decide

set_option maxRecDepth 200000 in
theorem romanBlock1 : romanBlockOk 500 := by decide

set_option maxRecDepth 200000 in
theorem romanBlock2 : romanBlockOk 1000 := by decide

set_option maxRecDepth 200000 in
theorem romanBlock3 : romanBlockOk 1500 := by decide

set_option maxRecDepth 200000 in
theorem romanBlock4 : romanBlockOk 2000 := by decide

set_option maxRecDepth 200000 in
theorem romanBlock5 : romanBlockOk 2500 := by decide

set_option maxRecDepth 200000 in
theorem romanBlock6 : romanBlockOk 3000 := by decide

set_option maxRecDepth 200000 in
theorem romanBlock7 : romanBlockOk 3500 := by decide

set_option maxRecDepth 200000 in
theorem romanBlock8 : romanBlockOk 4000 := by decide

set_option maxRecDepth 200000 in
theorem romanBlock9 : romanBlockOk 4500 := by decide

/-- Round-trip over the whole range, assembled from the blocks. -/
theorem romanRT_nat (n : Nat) (h1 : 1 ≤ n) (h2 : n ≤ 4999) :
    (toRoman (n : Int)).bind fromRoman = .ok (n : Int) := by
  have use : ∀ o : Nat, romanBlockOk o → o ≤ n → n < o + 500 →
      (toRoman (n : Int)).bind fromRoman = .ok (n : Int) := by
    intro o hB ho hn
    have e : o + (n - o) = n := by omega
    have := hB (n - o) (by omega) (by omega)
    rw [e] at this
    exact this
  rcases Nat.lt_or_ge n 500 with h | h
  · exact use 0 romanBlock0 (by omega) (by omega)
  rcases Nat.lt_or_ge n 1000 with h' | h'
  · exact use 500 romanBlock1 h (by omega)
  rcases Nat.lt_or_ge n 1500 with h'' | h''
  · exact use 1000 romanBlock2 h' (by omega)
  rcases Nat.lt_or_ge n 2000 with h3 | h3
  · exact use 1500 romanBlock3 h'' (by omega)
  rcases Nat.lt_or_ge n 2500 with h4 | h4
  · exact use 2000 romanBlock4 h3 (by omega)
  rcases Nat.lt_or_ge n 3000 with h5 | h5
  · exact use 2500 romanBlock5 h4 (by omega)
  rcases Nat.lt_or_ge n 3500 with h6 | h6
  · exact use 3000 romanBlock6 h5 (by omega)
  rcases Nat.lt_or_ge n 4000 with h7 | h7
  · exact use 3500 romanBlock7 h6 (by omega)
  rcases Nat.lt_or_ge n 4500 with h8 | h8
  · exact use 4000 romanBlock8 h7 (by omega)
  · exact use 4500 romanBlock9 h8 (by omega)

/-- C3.  For every integer `1 ≤ n ≤ 4999`, parsing the roman rendering of
`n` yields `n` again. -/
theorem c3_roman_round_trip (n : Int) (h1 : 1 ≤ n) (h2 : n ≤ 4999) :
    (toRoman n).bind fromRoman = .ok n := by
  lift n to ℕ using (by omega) with m
  exact romanRT_nat m (by exact_mod_cast h1) (by exact_mod_cast h2)

/-- C3 witness: the round-trip at the concrete inputs 19 and 4999. -/
theorem c3_roman_round_trip_witness :
    (toRoman 19).bind fromRoman = .ok 19 ∧ (toRoman 4999).bind fromRoman = .ok 4999 :=
  ⟨c3_roman_round_trip 19 (by norm_num) (by norm_num),
   c3_roman_round_trip 4999 (by norm_num) (by norm_num)⟩

/-- A list containing a character with no roman value always parses to an
error, whatever the accumulator state (errors are final in the scan). -/
theorem fromRomanGo_error_of_bad (l : List Char) : ∀ x : Char, x ∈ l → rValues x = none →
    ∀ (value : Int) (highest : Nat), ∃ e, fromRomanGo l value highest = .error e := by
  induction l with
  | nil =>
    intro x hx
    cases hx
  | cons c rest ih =>
    intro x hx hbad value highest
    cases hc : rValues c with
    | none =>
      refine ⟨"Invalid roman character", ?_⟩
      simp only [fromRomanGo, hc]
    | some v =>
      have hx' : x ∈ rest := by
        rcases List.mem_cons.mp hx with h | h
        · rw [h, hc] at hbad
          cases hbad
        · exact h
      by_cases hge : v ≥ highest
      · obtain ⟨e, he⟩ := ih x hx' hbad (value + v) v
        refine ⟨e, ?_⟩
        simp only [fromRomanGo, hc]
        rw [if_pos hge]
        exact he
      · by_cases hsub : ¬(v = 1 ∨ v = 10 ∨ v = 100) ∨ highest / v > 10
        · refine ⟨"Invalid roman numeral (out of order)", ?_⟩
          simp only [fromRomanGo, hc]
          rw [if_neg hge, if_pos hsub]
        · obtain ⟨e, he⟩ := ih x hx' hbad (value - v) highest
          refine ⟨e, ?_⟩
          simp only [fromRomanGo, hc]
          rw [if_neg hge, if_neg hsub]
          exact he

/-- C8.  The right-to-left roman scan adds a digit at least as large as
the running highest, subtracts a valid subtractive digit (1, 10 or 100
with the highest at most ten times larger), errors on any other
combination, accepts the non-canonical `IIII` and `VIIII`, and errors on
a character with no roman value anywhere in the input. -/
theorem c8_from_roman :
    (fromRoman "IIII" = .ok 4) ∧
    (fromRoman "VIIII" = .ok 9) ∧
    (fromRoman "XIX" = .ok 19) ∧
    (∀ (rest : List Char) (value : Int) (highest : Nat) (c : Char) (v : Nat),
      rValues c = some v → v ≥ highest →
      fromRomanGo (c :: rest) value highest = fromRomanGo rest (value + v) v) ∧
    (∀ (rest : List Char) (value : Int) (highest : Nat) (c : Char) (v : Nat),
      rValues c = some v → ¬(v ≥ highest) → (v = 1 ∨ v = 10 ∨ v = 100) → highest / v ≤ 10 →
      fromRomanGo (c :: rest) value highest = fromRomanGo rest (value - v) highest) ∧
    (∀ (rest : List Char) (value : Int) (highest : Nat) (c : Char) (v : Nat),
      rValues c = some v → ¬(v ≥ highest) → (¬(v = 1 ∨ v = 10 ∨ v = 100) ∨ highest / v > 10) →
      ∃ e, fromRomanGo (c :: rest) value highest = .error e) ∧
    (∀ (pre suf : List Char) (c : Char),
      rValues c.toUpper = none →
      ∃ e, fromRoman (String.mk (pre ++ c :: suf)) = .error e) ∧
    (∃ e, fromRoman "IC" = .error e) := by
  refine ⟨by decide, by decide, by decide, ?_, ?_, ?_, ?_,
    ⟨"Invalid roman numeral (out of order)", by decide⟩⟩
  · intro rest value highest c v hc hge
    simp only [fromRomanGo, hc]
    rw [if_pos hge]
  · intro rest value highest c v hc hge hsub hdiv
    have hno : ¬(¬(v = 1 ∨ v = 10 ∨ v = 100) ∨ highest / v > 10) := by
      push_neg
      exact ⟨hsub, by omega⟩
    simp only [fromRomanGo, hc]
    rw [if_neg hge, if_neg hno]
  · intro rest value highest c v hc hge hbad
    refine ⟨"Invalid roman numeral (out of order)", ?_⟩
    simp only [fromRomanGo, hc]
    rw [if_neg hge, if_pos hbad]
  · intro pre suf c hc
    apply fromRomanGo_error_of_bad _ c.toUpper _ hc
    simp only [List.mem_reverse, List.mem_map]
    exact ⟨c, by simp, rfl⟩

/-- C8 witness: each scan rule at a concrete state, and the error on a
non-roman character. -/
theorem c8_from_roman_witness :
    (fromRomanGo ['X'] 0 0 = fromRomanGo [] (0 + 10) 10) ∧
    (fromRomanGo ['I'] 5 10 = fromRomanGo [] (5 - 1) 10) ∧
    (∃ e, fromRomanGo ['I'] 5 50 = .error e) ∧
    (∃ e, fromRoman (String.mk (['I'] ++ '!' :: [])) = .error e) :=
  ⟨c8_from_roman.2.2.2.1 [] 0 0 'X' 10 (by decide) (by decide),
   c8_from_roman.2.2.2.2.1 [] 5 10 'I' 1 (by decide) (by decide) (by tauto) (by decide),
   c8_from_roman.2.2.2.2.2.1 [] 5 50 'I' 1 (by decide) (by decide) (by right; decide),
   c8_from_roman.2.2.2.2.2.2.1 ['I'] [] '!' (by decide)⟩

/-- C4.  The node ordering: a numberless node never sorts before any node
and a numbered node sorts before a numberless one; numbered nodes with
unequal numbers are ordered by their numbers; with equal numbers an
unlabelled node sorts before a labelled one, and two labelled nodes
compare by their labels. -/
theorem c4_node_ordering :
    (∀ a b : NodeData, a.number = none → nodeLt a b = false) ∧
    (∀ (a b : NodeData) (nb : UNumber), a.number = none → b.number = some nb →
      nodeLt b a = true) ∧
    (∀ (a b : NodeData) (na nb : UNumber), a.number = some na → b.number = some nb →
      na.beq nb = false → nodeLt a b = na.lt nb) ∧
    (∀ (a b : NodeData) (na nb : UNumber) (eb : String), a.number = some na →
      b.number = some nb → na.beq nb = true → a.extra = none → b.extra = some eb →
      nodeLt a b = true ∧ nodeLt b a = false) ∧
    (∀ (a b : NodeData) (na nb : UNumber) (ea eb : String), a.number = some na →
      b.number = some nb → na.beq nb = true → a.extra = some ea → b.extra = some eb →
      nodeLt a b = strLt ea eb) := by
  have beqSymm : ∀ na nb : UNumber, na.beq nb = true → nb.beq na = true := by
    intro na nb h
    simp only [UNumber.beq, Bool.and_eq_true, decide_eq_true_eq] at h ⊢
    exact ⟨h.1.symm, h.2.symm⟩
  refine ⟨?_, ?_, ?_, ?_, ?_⟩
  · intro a b ha
    simp [nodeLt, ha]
  · intro a b nb ha hb
    simp [nodeLt, ha, hb]
  · intro a b na nb ha hb hne
    simp [nodeLt, ha, hb, hne]
  · intro a b na nb eb ha hb heq hea heb
    constructor
    · simp [nodeLt, ha, hb, heq, hea]
    · simp [nodeLt, ha, hb, beqSymm na nb heq, hea, heb]
  · intro a b na nb ea eb ha hb heq hea heb
    simp [nodeLt, ha, hb, heq, hea, heb]

/-- C4 witness: the ordering rules at concrete nodes. -/
theorem c4_node_ordering_witness :
    (nodeLt ⟨"x", none, [], some "Bonus"⟩ ⟨"y", some ⟨1, none⟩, [], none⟩ = false) ∧
    (nodeLt ⟨"y", some ⟨1, none⟩, [], none⟩ ⟨"x", none, [], some "Bonus"⟩ = true) ∧
    (nodeLt ⟨"y", some ⟨1, none⟩, [], none⟩ ⟨"z", some ⟨2, none⟩, [], none⟩ =
      UNumber.lt ⟨1, none⟩ ⟨2, none⟩) ∧
    (nodeLt ⟨"y", some ⟨1, none⟩, [], none⟩ ⟨"w", some ⟨1, none⟩, [], some "A"⟩ = true) ∧
    (nodeLt ⟨"w", some ⟨1, none⟩, [], some "A"⟩ ⟨"v", some ⟨1, none⟩, [], some "B"⟩ =
      strLt "A" "B") :=
  ⟨c4_node_ordering.1 _ _ rfl,
   c4_node_ordering.2.1 _ _ ⟨1, none⟩ rfl rfl,
   c4_node_ordering.2.2.1 _ _ ⟨1, none⟩ ⟨2, none⟩ rfl rfl (by decide),
   (c4_node_ordering.2.2.2.1 _ _ ⟨1, none⟩ ⟨1, none⟩ "A" rfl rfl (by decide) rfl rfl).1,
   c4_node_ordering.2.2.2.2 _ _ ⟨1, none⟩ ⟨1, none⟩ "A" "B" rfl rfl (by decide) rfl rfl⟩

/-- C6.  `normalize` on a node whose number has a zero decimal part drops
the decimal, leaving the normal whole number; a node without a number is
unchanged. -/
theorem c6_normalize :
    (∀ (c : NodeData) (w : Int), c.number = some ⟨w, some 0⟩ →
      c.normalizeN = { c with number := some ⟨w, none⟩ } ∧
      (⟨w, none⟩ : UNumber).isNormal = true) ∧
    (∀ c : NodeData, c.number = none → c.normalizeN = c) := by
  constructor
  · intro c w h
    constructor
    · simp [NodeData.normalizeN, h, UNumber.normalize]
    · simp [UNumber.isNormal]
  · intro c h
    simp [NodeData.normalizeN, h]

/-- The accumulated output of the renumber loop only grows at the tail:
the loop from an arbitrary accumulator is the loop from an empty one,
prefixed. -/
theorem foldl_volStep_out (l : List NodeData) : ∀ (n : Int) (out : List NodeData),
    l.foldl volStep (n, out) =
      ((l.foldl volStep (n, [])).1, out ++ (l.foldl volStep (n, [])).2) := by
  induction l with
  | nil => simp
  | cons c l ih =>
    intro n out
    obtain ⟨a, δ, hp⟩ : ∃ a δ, volStep (n, []) c = (a, δ) := ⟨_, _, rfl⟩
    have hstep : ∀ o : List NodeData, volStep (n, o) c =
        ((volStep (n, []) c).1, o ++ (volStep (n, []) c).2) := by
      intro o
      by_cases h : c.skipN
      · simp [volStep, h]
      · simp [volStep, h]
    rw [hp] at hstep
    simp only at hstep
    rw [List.foldl_cons, List.foldl_cons, hstep out, hstep [], List.nil_append]
    rw [ih a (out ++ δ), ih a δ]
    simp

/-- `Volume.renumber` over all-normal chapters: the counter advances by
the chapter count and the `k`-th chapter is assigned `n0 + k + 1`. -/
theorem volRenumber_normal (nodes : List NodeData) : ∀ n0 : Int,
    (∀ c ∈ nodes, c.isNormalN = true) →
    (volRenumber n0 nodes).1 = n0 + nodes.length ∧
    (volRenumber n0 nodes).2.map (fun c => c.number.map UNumber.value) =
      (List.range nodes.length).map (fun k : Nat => some (n0 + (k : Int) + 1)) := by
  induction nodes with
  | nil => simp [volRenumber]
  | cons c rest ih =>
    intro n0 h
    have hc : c.isNormalN = true := h c (List.mem_cons_self c rest)
    have hskip : c.skipN = false := by
      unfold NodeData.isNormalN at hc
      unfold NodeData.skipN
      cases hn : c.number with
      | none => rw [hn] at hc; cases hc
      | some u => simp
    have hstep : volStep (n0, ([] : List NodeData)) c =
        (n0 + 1, [forceNode c (some (n0 + 1)) .ellipsis]) := by
      simp [volStep, hskip, hc]
    obtain ⟨ih1, ih2⟩ := ih (n0 + 1) (fun d hd => h d (List.mem_cons_of_mem c hd))
    have hfold : volRenumber n0 (c :: rest) =
        ((volRenumber (n0 + 1) rest).1,
          forceNode c (some (n0 + 1)) .ellipsis :: (volRenumber (n0 + 1) rest).2) := by
      show List.foldl volStep (volStep (n0, []) c) rest = _
      rw [hstep, foldl_volStep_out rest (n0 + 1) [forceNode c (some (n0 + 1)) .ellipsis]]
      rfl
    rw [hfold]
    constructor
    · rw [ih1]
      simp only [List.length_cons]
      push_cast
      ring
    · simp only [List.map_cons, ih2]
      have hforce : (forceNode c (some (n0 + 1)) .ellipsis).number.map UNumber.value =
          some (n0 + 1) := by
        cases hn : c.number <;> simp [forceNode, hn, UNumber.setWhole]
      rw [hforce, List.length_cons, List.range_succ_eq_map, List.map_cons, List.map_map]
      congr 1
      · norm_num
      · apply List.map_congr_left
        intro k _
        simp only [Function.comp_apply, Option.some.injEq]
        push_cast
        ring

/-- In flat mode the series counter never moves: every volume is
renumbered from 0. -/
theorem foldl_seriesStep_flat (vols : List (List NodeData)) : ∀ out,
    vols.foldl (seriesStep true) (0, out) =
      (0, out ++ vols.map (fun vol => (volRenumber 0 vol).2)) := by
  induction vols with
  | nil => simp
  | cons v vols ih =>
    intro out
    rw [List.foldl_cons]
    have : seriesStep true (0, out) v = (0, out ++ [(volRenumber 0 v).2]) := by
      simp [seriesStep]
    rw [this, ih]
    simp

/-- C5.  Renumbering: in continuous mode the counter carries across the
three volumes (4, 3 and 5 normal chapters become 1-4, 5-7, 8-12); in flat
mode every all-normal volume restarts at 1; a non-normal numbered chapter
is assigned the current counter value without advancing it. -/
theorem c5_renumber :
    (∀ v1 v2 v3 : List NodeData,
      v1.length = 4 → v2.length = 3 → v3.length = 5 →
      (∀ c ∈ v1, c.isNormalN = true) → (∀ c ∈ v2, c.isNormalN = true) →
      (∀ c ∈ v3, c.isNormalN = true) →
      (seriesRenumber false [v1, v2, v3]).map
          (fun vol => vol.map (fun c => c.number.map UNumber.value)) =
        [[some 1, some 2, some 3, some 4],
         [some 5, some 6, some 7],
         [some 8, some 9, some 10, some 11, some 12]]) ∧
    (∀ vols : List (List NodeData),
      (∀ vol ∈ vols, ∀ c ∈ vol, c.isNormalN = true) →
      (seriesRenumber true vols).map
          (fun vol => vol.map (fun c => c.number.map UNumber.value)) =
        vols.map (fun vol => (List.range vol.length).map (fun k : Nat => some ((k : Int) + 1)))) ∧
    (∀ (n0 : Int) (c : NodeData) (rest : List NodeData) (u : UNumber) (d : Int),
      c.number = some u → u.dec = some d →
      volRenumber n0 (c :: rest) =
        ((volRenumber n0 rest).1,
          forceNode c (some n0) .ellipsis :: (volRenumber n0 rest).2) ∧
      (forceNode c (some n0) .ellipsis).number = some ⟨n0, u.dec⟩) := by
  refine ⟨?_, ?_, ?_⟩
  · intro v1 v2 v3 h1 h2 h3 hn1 hn2 hn3
    obtain ⟨c1, m1⟩ := volRenumber_normal v1 0 hn1
    obtain ⟨c2, m2⟩ := volRenumber_normal v2 4 hn2
    obtain ⟨c3, m3⟩ := volRenumber_normal v3 7 hn3
    rw [h1] at c1 m1
    rw [h2] at c2 m2
    rw [h3] at c3 m3
    norm_num at c1 c2 c3
    unfold seriesRenumber
    simp only [List.foldl_cons, List.foldl_nil]
    have s1 : seriesStep false (0, []) v1 = (4, [(volRenumber 0 v1).2]) := by
      simp [seriesStep, c1]
    rw [s1]
    have s2 : seriesStep false (4, [(volRenumber 0 v1).2]) v2 =
        (7, [(volRenumber 0 v1).2, (volRenumber 4 v2).2]) := by
      simp [seriesStep, c2]
    rw [s2]
    have s3 : seriesStep false (7, [(volRenumber 0 v1).2, (volRenumber 4 v2).2]) v3 =
        (12, [(volRenumber 0 v1).2, (volRenumber 4 v2).2, (volRenumber 7 v3).2]) := by
      simp [seriesStep, c3]
    rw [s3]
    simp only [List.map_cons, List.map_nil, m1, m2, m3, h1, h2, h3]
    decide
  · intro vols h
    unfold seriesRenumber
    rw [foldl_seriesStep_flat vols []]
    simp only [List.nil_append, List.map_map]
    apply List.map_congr_left
    intro vol hvol
    obtain ⟨-, m⟩ := volRenumber_normal vol 0 (h vol hvol)
    simp only [Function.comp_apply, m]
    apply List.map_congr_left
    intro k _
    simp
  · intro n0 c rest u d hu hd
    have hskip : c.skipN = false := by
      simp [NodeData.skipN, hu]
    have hnorm : c.isNormalN = false := by
      simp [NodeData.isNormalN, hu, UNumber.isNormal, hd]
    have hstep : volStep (n0, ([] : List NodeData)) c =
        (n0, [forceNode c (some n0) .ellipsis]) := by
      simp [volStep, hskip, hnorm]
    constructor
    · show List.foldl volStep (volStep (n0, []) c) rest = _
      rw [hstep, foldl_volStep_out rest n0 [forceNode c (some n0) .ellipsis]]
      rfl
    · simp [forceNode, hu, UNumber.setWhole]

/-- C5 witness: three concrete all-normal volumes with 4, 3 and 5
chapters renumbered continuously and flat, and a concrete special
chapter keeping the counter. -/
theorem c5_renumber_witness :
    ((seriesRenumber false
        [[⟨"a", some ⟨9, none⟩, [], none⟩, ⟨"b", some ⟨8, none⟩, [], none⟩,
          ⟨"c", some ⟨7, none⟩, [], none⟩, ⟨"d", some ⟨6, none⟩, [], none⟩],
         [⟨"e", some ⟨5, none⟩, [], none⟩, ⟨"f", some ⟨4, none⟩, [], none⟩,
          ⟨"g", some ⟨3, none⟩, [], none⟩],
         [⟨"h", some ⟨2, none⟩, [], none⟩, ⟨"i", some ⟨1, none⟩, [], none⟩,
          ⟨"j", some ⟨21, none⟩, [], none⟩, ⟨"k", some ⟨22, none⟩, [], none⟩,
          ⟨"l", some ⟨23, none⟩, [], none⟩]]).map
        (fun vol => vol.map (fun c => c.number.map UNumber.value)) =
      [[some 1, some 2, some 3, some 4],
       [some 5, some 6, some 7],
       [some 8, some 9, some 10, some 11, some 12]]) ∧
    (volRenumber 3 [⟨"s", some ⟨7, some 2⟩, [], none⟩] =
      ((volRenumber 3 ([] : List NodeData)).1,
        forceNode ⟨"s", some ⟨7, some 2⟩, [], none⟩ (some 3) .ellipsis ::
          (volRenumber 3 ([] : List NodeData)).2) ∧
      (forceNode ⟨"s", some ⟨7, some 2⟩, [], none⟩ (some 3) .ellipsis).number =
        some ⟨3, some 2⟩) :=
  ⟨c5_renumber.1 _ _ _ rfl rfl rfl (by decide) (by decide) (by decide),
   c5_renumber.2.2 3 ⟨"s", some ⟨7, some 2⟩, [], none⟩ [] ⟨7, some 2⟩ 2 rfl rfl⟩

/-- Recognizes the events that touch the filesystem (`old.replace(new)`),
as opposed to the same-entry no-op. -/
def isMoveEvent : FsEvent → Bool
  | .move _ _ => true
  | .skip _ _ => false

/-- One unfolding of `Transform.run` on a node with a new name: children
first, relative to the parent's old path, then the node's own action. -/
theorem run_some (same : List String → List String → Bool) (dry : Bool) (path : List String)
    (old nm : String) (nested : List Transform) :
    Transform.run same dry path (.mk old (some nm) nested) =
      (nested.map (Transform.run same dry (path ++ [old]))).flatten ++
        (if same (path ++ [old]) (path ++ [nm])
         then [FsEvent.skip (path ++ [old]) (path ++ [nm])]
         else [FsEvent.move (path ++ [old]) (path ++ [nm])]) := by
  rw [Transform.run]
  simp only [List.attach_map_val]
  split <;> rfl

/-- One unfolding of `Transform.run` on the root (`new is None`): only the
children are visited. -/
theorem run_none (same : List String → List String → Bool) (dry : Bool) (path : List String)
    (old : String) (nested : List Transform) :
    Transform.run same dry path (.mk old none nested) =
      (nested.map (Transform.run same dry (path ++ [old]))).flatten := by
  rw [Transform.run]
  simp only [List.attach_map_val]

/-- C7.  `Transform.run` is a post-order traversal: all child actions come
before the node's own rename and are resolved relative to the parent's old
path; the root (`new = None`) only visits children; and when the target
resolves to the same entry as the source the node contributes no move. -/
theorem c7_transform_run :
    (∀ (same : List String → List String → Bool) (dry : Bool) (path : List String)
        (old nm : String) (nested : List Transform),
      Transform.run same dry path (.mk old (some nm) nested) =
        (nested.map (Transform.run same dry (path ++ [old]))).flatten ++
          (if same (path ++ [old]) (path ++ [nm])
           then [FsEvent.skip (path ++ [old]) (path ++ [nm])]
           else [FsEvent.move (path ++ [old]) (path ++ [nm])])) ∧
    (∀ (same : List String → List String → Bool) (dry : Bool) (path : List String)
        (old : String) (nested : List Transform),
      Transform.run same dry path (.mk old none nested) =
        (nested.map (Transform.run same dry (path ++ [old]))).flatten) ∧
    (∀ (same : List String → List String → Bool) (dry : Bool) (path : List String)
        (old nm : String) (nested : List Transform),
      same (path ++ [old]) (path ++ [nm]) = true →
      (Transform.run same dry path (.mk old (some nm) nested)).filter isMoveEvent =
        ((nested.map (Transform.run same dry (path ++ [old]))).flatten).filter isMoveEvent) := by
  refine ⟨run_some, run_none, ?_⟩
  intro same dry path old nm nested h
  rw [run_some, List.filter_append]
  simp [h, isMoveEvent]

/-- C7 witness: a concrete two-child tree where the parent's target is the
same entry as its source, so the parent contributes no move. -/
theorem c7_transform_run_witness :
    (Transform.run (fun a b => a == b) false [] (.mk "r" (some "r")
        [.mk "a" (some "b") [], .mk "c" (some "d") []]) =
      (([Transform.mk "a" (some "b") [], Transform.mk "c" (some "d") []].map
          (Transform.run (fun a b => a == b) false ["r"])).flatten ++
        (if (fun a b : List String => a == b) ["r"] ["r"]
         then [FsEvent.skip ["r"] ["r"]]
         else [FsEvent.move ["r"] ["r"]]))) ∧
    ((Transform.run (fun a b => a == b) false [] (.mk "r" (some "r")
        [.mk "a" (some "b") [], .mk "c" (some "d") []])).filter isMoveEvent =
      (([Transform.mk "a" (some "b") [], Transform.mk "c" (some "d") []].map
          (Transform.run (fun a b => a == b) false ["r"])).flatten).filter isMoveEvent) :=
  ⟨c7_transform_run.1 _ false [] "r" "r" _,
   c7_transform_run.2.2 _ false [] "r" "r" _ (by decide)⟩

/-- `_guess` with a unique expected match: that match is chosen and
removed from the remaining candidates, which become the hoaxes. -/
theorem guess_unique (name : String) (parent : Option SpuriousInfo) (exp : List Int)
    (numbers' : List UNumber) (x : UNumber)
    (h : numbers'.filter (fun u => exp.any (fun e => u.eqInt e)) = [x]) :
    guess name parent exp numbers' = .ok (some x, eraseU numbers' x) := by
  have hne : numbers' ≠ [] := by
    intro h0
    rw [h0] at h
    simp at h
  unfold guess
  rw [if_neg (fun hl => hne (List.length_eq_zero.mp hl)), h]

/-- `_guess` with two or more expected matches raises
`CannotChooseError` carrying the node's name. -/
theorem guess_ambiguous (name : String) (parent : Option SpuriousInfo) (exp : List Int)
    (numbers' : List UNumber)
    (h : 2 ≤ (numbers'.filter (fun u => exp.any (fun e => u.eqInt e))).length) :
    guess name parent exp numbers' = .error (.cannotChoose name) := by
  rcases hf : numbers'.filter (fun u => exp.any (fun e => u.eqInt e)) with - | ⟨a, - | ⟨b, t⟩⟩
  · rw [hf] at h
    simp at h
  · rw [hf] at h
    simp at h
  · have hne : ¬(numbers'.length = 0) := by
      intro hl
      rw [List.length_eq_zero.mp hl] at hf
      simp at hf
    unfold guess
    rw [if_neg hne, hf]

/-- `_parse_number` when exactly one post-removal candidate is in the
pool: it becomes the number (normalized on request), the other candidates
become hoaxes, no special/bonus label is set, and the pool loses the
candidate's whole value exactly when the resulting number is normal. -/
theorem parseNumberWith_unique (opt : OptG) (name : String) (parent : Option SpuriousInfo)
    (exp : List Int) (numbers numbers' : List UNumber) (x : UNumber)
    (h1 : rmSpurious parent numbers false = numbers')
    (h2 : numbers'.filter (fun u => exp.any (fun e => u.eqInt e)) = [x]) :
    parseNumberWith opt name parent exp numbers =
      .ok (⟨name, some (if opt.normalize then x.normalize else x), eraseU numbers' x, none⟩,
        if (if opt.normalize then x.normalize else x).isNormal then exp.erase x.value
        else exp) := by
  subst h1
  have hg := guess_unique name parent exp _ x h2
  have hxmem : x ∈ (rmSpurious parent numbers false).filter
      (fun u => exp.any (fun e => u.eqInt e)) := by
    rw [h2]
    exact List.mem_singleton_self x
  obtain ⟨hxin, hxpred⟩ := List.mem_filter.mp hxmem
  obtain ⟨e, he, heq⟩ := List.any_eq_true.mp hxpred
  have hval : x.value = e := by
    unfold UNumber.eqInt at heq
    cases hd : x.dec with
    | none =>
      rw [hd] at heq
      exact of_decide_eq_true heq
    | some d =>
      rw [hd] at heq
      simp only at heq
      by_cases h0 : d = 0
      · rw [if_pos h0] at heq
        exact of_decide_eq_true heq
      · rw [if_neg h0] at heq
        cases heq
  have hnumval : (if opt.normalize then x.normalize else x).value = x.value := by
    by_cases hn : opt.normalize
    · simp only [if_pos hn, UNumber.normalize]
      split <;> rfl
    · rw [if_neg hn]
  unfold parseNumberWith
  rw [hg]
  simp only []
  by_cases hnorm : (if opt.normalize then x.normalize else x).isNormal
  · rw [if_pos hnorm, if_pos hnorm]
    have hcont : exp.contains (if opt.normalize then x.normalize else x).value = true := by
      rw [hnumval, hval]
      exact List.elem_iff.mpr he
    rw [if_pos hcont, hnumval, hval]
  · rw [if_neg hnorm, if_neg hnorm]

/-- `_parse_number` when two or more post-removal candidates are in the
pool: construction fails with `CannotChooseError` carrying the name. -/
theorem parseNumberWith_ambiguous (opt : OptG) (name : String) (parent : Option SpuriousInfo)
    (exp : List Int) (numbers numbers' : List UNumber)
    (h1 : rmSpurious parent numbers false = numbers')
    (h2 : 2 ≤ (numbers'.filter (fun u => exp.any (fun e => u.eqInt e))).length) :
    parseNumberWith opt name parent exp numbers = .error (.cannotChoose name) := by
  subst h1
  unfold parseNumberWith
  rw [guess_ambiguous name parent exp _ h2]

/-- C1 (amended).  After spurious removal the candidates are filtered by
the pool: a unique match becomes the number, the other candidates become
the hoaxes, and the pool loses the match's whole value exactly when the
resulting number is normal (a `7.0`-style match with normalization off
leaves the pool untouched); two or more matches fail with
`CannotChooseError` carrying the name — in particular for any two
candidates both in the pool. -/
theorem c1_number_choice :
    (∀ (opt : OptG) (name : String) (parent : Option SpuriousInfo) (exp : List Int)
        (numbers numbers' : List UNumber) (x : UNumber),
      rmSpurious parent numbers false = numbers' →
      numbers'.filter (fun u => exp.any (fun e => u.eqInt e)) = [x] →
      parseNumberWith opt name parent exp numbers =
        .ok (⟨name, some (if opt.normalize then x.normalize else x), eraseU numbers' x, none⟩,
          if (if opt.normalize then x.normalize else x).isNormal then exp.erase x.value
          else exp)) ∧
    (∀ (opt : OptG) (name : String) (parent : Option SpuriousInfo) (exp : List Int)
        (numbers numbers' : List UNumber),
      rmSpurious parent numbers false = numbers' →
      2 ≤ (numbers'.filter (fun u => exp.any (fun e => u.eqInt e))).length →
      parseNumberWith opt name parent exp numbers = .error (.cannotChoose name)) ∧
    (∀ (opt : OptG) (name : String) (parent : Option SpuriousInfo) (exp : List Int)
        (numbers numbers' : List UNumber) (a b : UNumber),
      rmSpurious parent numbers false = numbers' →
      [a, b].Sublist numbers' →
      exp.any (fun e => a.eqInt e) = true →
      exp.any (fun e => b.eqInt e) = true →
      parseNumberWith opt name parent exp numbers = .error (.cannotChoose name)) := by
  refine ⟨parseNumberWith_unique, parseNumberWith_ambiguous, ?_⟩
  intro opt name parent exp numbers numbers' a b h1 hsub ha hb
  refine parseNumberWith_ambiguous opt name parent exp numbers numbers' h1 ?_
  have hfs := hsub.filter (fun u => exp.any (fun e => u.eqInt e))
  have hab : ([a, b].filter (fun u => exp.any (fun e => u.eqInt e))) = [a, b] := by
    simp [List.filter, ha, hb]
  rw [hab] at hfs
  simpa using hfs.length_le

/-- C1 witness: a unique pool match is chosen with the leftover candidate
as hoax and its slot removed; a name with the two pool values 1 and 2
fails with `CannotChooseError`. -/
theorem c1_number_choice_witness :
    parseNumberWith ⟨false, false, some "Bonus", some " Special", 1, false⟩ "Chapter 2 v9"
        (some ⟨[], []⟩) [1, 2, 3] [⟨2, none⟩, ⟨9, none⟩] =
      .ok (⟨"Chapter 2 v9", some ⟨2, none⟩, [⟨9, none⟩], none⟩, [1, 3]) ∧
    parseNumberWith ⟨false, false, some "Bonus", some " Special", 1, false⟩ "Chapter 1-2"
        (some ⟨[], []⟩) [1, 2, 3] [⟨1, none⟩, ⟨2, none⟩] =
      .error (.cannotChoose "Chapter 1-2") :=
  ⟨(c1_number_choice.1 ⟨false, false, some "Bonus", some " Special", 1, false⟩ "Chapter 2 v9"
      (some ⟨[], []⟩) [1, 2, 3] [⟨2, none⟩, ⟨9, none⟩] [⟨2, none⟩, ⟨9, none⟩] ⟨2, none⟩
      (by decide) (by decide)).trans (by decide),
   c1_number_choice.2.1 ⟨false, false, some "Bonus", some " Special", 1, false⟩ "Chapter 1-2"
      (some ⟨[], []⟩) [1, 2, 3] [⟨1, none⟩, ⟨2, none⟩] [⟨1, none⟩, ⟨2, none⟩]
      (by decide) (by decide)⟩

/-- C1 counterexample to the claim as stated: the name `"Chapter 7.0"`
against the pool `[7]` has the unique matching candidate `7.0` (a zero
decimal part is falsy, so `7.0 == 7` holds against the pool), which
becomes the node's number — but `is_normal()` is false for `7.0` with
normalization off, so `_parse_number` returns before
`expected.remove(n)`: the pool still holds `7`, while the claim says the
matched candidate is removed from the pool. -/
theorem c1_pool_kept_counterexample :
    parseNumberWith ⟨false, false, some "Bonus", some " Special", 1, false⟩ "Chapter 7.0"
        (some ⟨[], []⟩) [7] [⟨7, some 0⟩] =
      .ok (⟨"Chapter 7.0", some ⟨7, some 0⟩, [], none⟩, [7]) ∧
    ([7] : List Int) ≠ List.erase [7] 7 := by
  exact ⟨by decide, by decide⟩

/-- The discard loop does nothing when every constructed chapter is
normal. -/
theorem discardLoop_all_normal (nodes : List NodeData) : ∀ (pool : List Int) (last : Int),
    (∀ c ∈ nodes, c.isNormalN = true) → discardLoop nodes pool last = .ok (pool, last) := by
  induction nodes with
  | nil => intro pool last _; rfl
  | cons c rest ih =>
    intro pool last h
    have hc : c.isNormalN = true := h c (List.mem_cons_self c rest)
    simp only [discardLoop, hc, if_true]
    exact ih pool last (fun d hd => h d (List.mem_cons_of_mem c hd))

/-- A single non-normal chapter with the top pool slot unconsumed
discards exactly that slot and decrements `last` once. -/
theorem discardLoop_single_special (c : NodeData) (rest : List NodeData)
    (pool : List Int) (last : Int) (hc : c.isNormalN = false)
    (hlast : pool.getLast? = some last) (hrest : ∀ d ∈ rest, d.isNormalN = true) :
    discardLoop (c :: rest) pool last = .ok (pool.dropLast, last - 1) := by
  simp only [discardLoop, hc, Bool.false_eq_true, if_false, hlast]
  simp only [if_pos trivial, if_true]
  exact discardLoop_all_normal rest pool.dropLast (last - 1) hrest

/-- A non-normal chapter does not discard when the top pool slot was
already consumed (it no longer equals the running `last`). -/
theorem discardLoop_consumed_top (c : NodeData) (rest : List NodeData)
    (pool : List Int) (last v : Int) (hc : c.isNormalN = false)
    (hlast : pool.getLast? = some v) (hne : v ≠ last) :
    discardLoop (c :: rest) pool last = discardLoop rest pool last := by
  simp only [discardLoop, hc, Bool.false_eq_true, if_false, hlast]
  rw [if_neg hne]

/-- C2 (amended).  `populate` builds the pool as the contiguous run
`[last, last + count)` (starting from the chapter-level first index when
no previous value is given); the discard loop ignores normal chapters
(including specials, whose number is normal), and each chapter without a
normal number discards the top pool slot exactly when it still equals
the running `last` — once per such chapter, so possibly more than once
per populate call. -/
theorem c2_pool_and_discard :
    (∀ (last : Int) (count : Nat),
      (expectedPool last count).length = count ∧
      ∀ i : Nat, i < count → (expectedPool last count).getD i 0 = last + i) ∧
    (∀ (volInfo : SpuriousInfo) (opts : OptG) (chapters : List String),
      populateCore volInfo none opts chapters =
        populateCore volInfo (some opts.first) opts chapters) ∧
    (∀ (nodes : List NodeData) (pool : List Int) (last : Int),
      (∀ c ∈ nodes, c.isNormalN = true) → discardLoop nodes pool last = .ok (pool, last)) ∧
    (∀ (c : NodeData) (rest : List NodeData) (pool : List Int) (last : Int),
      c.isNormalN = false → pool.getLast? = some last → (∀ d ∈ rest, d.isNormalN = true) →
      discardLoop (c :: rest) pool last = .ok (pool.dropLast, last - 1)) ∧
    (∀ (c : NodeData) (rest : List NodeData) (pool : List Int) (last v : Int),
      c.isNormalN = false → pool.getLast? = some v → v ≠ last →
      discardLoop (c :: rest) pool last = discardLoop rest pool last) := by
  refine ⟨?_, ?_, fun nodes pool last h => discardLoop_all_normal nodes pool last h,
    discardLoop_single_special, discardLoop_consumed_top⟩
  · intro last count
    constructor
    · simp [expectedPool]
    · intro i hi
      simp [expectedPool, List.getD_eq_getElem?_getD, List.getElem?_map,
        List.getElem?_range hi]
  · intro volInfo opts chapters
    rfl

/-- C2 witness: the pool run at `last = 5`, `count = 3`; the default
first index; and the three discard behaviours at concrete inputs. -/
theorem c2_pool_and_discard_witness :
    ((expectedPool 5 3).length = 3 ∧ (expectedPool 5 3).getD 1 0 = 5 + 1) ∧
    (populateCore ⟨[], []⟩ none ⟨false, false, some "Bonus", some " Special", 1, false⟩
        ["Chapter 1"] =
      populateCore ⟨[], []⟩ (some 1) ⟨false, false, some "Bonus", some " Special", 1, false⟩
        ["Chapter 1"]) ∧
    (discardLoop [⟨"a", some ⟨1, none⟩, [], none⟩] [2, 3] 3 = .ok ([2, 3], 3)) ∧
    (discardLoop [⟨"b", none, [], some "Bonus"⟩] [2, 3] 3 =
      .ok (List.dropLast [2, 3], 3 - 1)) ∧
    (discardLoop [⟨"b", none, [], some "Bonus"⟩] [2, 3] 9 =
      discardLoop [] [2, 3] 9) :=
  ⟨⟨(c2_pool_and_discard.1 5 3).1, (c2_pool_and_discard.1 5 3).2 1 (by decide)⟩,
   c2_pool_and_discard.2.1 ⟨[], []⟩ ⟨false, false, some "Bonus", some " Special", 1, false⟩
     ["Chapter 1"],
   c2_pool_and_discard.2.2.1 [⟨"a", some ⟨1, none⟩, [], none⟩] [2, 3] 3 (by decide),
   c2_pool_and_discard.2.2.2.1 ⟨"b", none, [], some "Bonus"⟩ [] [2, 3] 3 rfl rfl
     (by intro d hd; cases hd),
   c2_pool_and_discard.2.2.2.2 ⟨"b", none, [], some "Bonus"⟩ [] [2, 3] 9 3 rfl rfl
     (by decide)⟩

/-- C2 counterexample to "the discard can happen at most once per
populate call": four directories, pool `[1, 2, 3, 4]`; `Chapter 1`
consumes 1, `Chapter 9` is special (normal number, so it never reaches
the discard check), and the two bonus chapters each discard a slot — the
final pool is `[2]`, while at most one discard would have left `[2, 3]`
(the post-consumption pool minus its top slot). -/
theorem c2_double_discard_counterexample :
    populateCore ⟨[], []⟩ none ⟨false, false, some "Bonus", some " Special", 1, false⟩
        ["Chapter 1", "Chapter 9", "Omake A", "Omake B"] =
      .ok ⟨[⟨"Chapter 1", some ⟨1, none⟩, [], none⟩,
            ⟨"Chapter 9", some ⟨9, none⟩, [], some " Special"⟩,
            ⟨"Omake A", none, [], some "Bonus"⟩,
            ⟨"Omake B", none, [], some "Bonus 2"⟩],
           [2], 2, some 10⟩ ∧
    ([2] : List Int) ≠ [2, 3] := by
  exact ⟨by decide, by decide⟩

/-- C6 witness: a node numbered `7.0` normalizes to `7`; an unnumbered
node is untouched. -/
theorem c6_normalize_witness :
    (NodeData.normalizeN ⟨"Chapter 7.0", some ⟨7, some 0⟩, [], none⟩ =
      ⟨"Chapter 7.0", some ⟨7, none⟩, [], none⟩ ∧
      (⟨7, none⟩ : UNumber).isNormal = true) ∧
    NodeData.normalizeN ⟨"Omake", none, [], some "Bonus"⟩ = ⟨"Omake", none, [], some "Bonus"⟩ :=
  ⟨c6_normalize.1 ⟨"Chapter 7.0", some ⟨7, some 0⟩, [], none⟩ 7 rfl,
   c6_normalize.2 ⟨"Omake", none, [], some "Bonus"⟩ rfl⟩

end Tankobon
